import Mathlib

/-!
# Checksum server and forwarding client: embedding and verified properties

Shallow embedding of `src/server.cpp` and `src/client.cpp`.

* Bytes are `Fin 256`; the cast `(uint8_t)buf[i]` is the value of the byte.
* `uint16_t checksum`, `uint32_t byte_count` and `size_t len` are naturals
  reduced modulo `2^16`, `2^32` and `2^64` at every update.
* System calls are oracles.  A descriptor that is read is a finite script of
  `ReadResult`s consumed front to back; a loop that asks for a read when the
  script is used up is blocked and yields no result (`none`).  The socket that
  is written is a function giving the result of the `i`-th `write` call when it
  is asked for `len` bytes.
* Every run produces the list of its observable `Event`s in program order.
-/

namespace ServerClient

/-- One octet of a stream or of memory. -/
abbrev Byte := Fin 256

/-- Bytes of an ASCII text, as `operator<<` and string literals lay them out. -/
def asciiBytes (s : String) : List Byte :=
  s.toList.map (fun c => Fin.ofNat c.toNat)

/-- Outcome of one `read(fd, buf, count)` call: the bytes the kernel has for the
caller (an empty chunk is end of stream), or failure (`-1`). -/
inductive ReadResult where
  | ok (chunk : List Byte)
  | error
deriving DecidableEq, Repr

/-- Observable actions of the two programs, in program order. -/
inductive Event where
  /-- The call `perror(msg)`. -/
  | perror (msg : String)
  /-- Text sent to `std::cout` by a diagnostic statement. -/
  | coutText (text : String)
  /-- Text sent to `std::cerr`. -/
  | cerrText (text : String)
  /-- Bytes sent to `std::cout` by `std::cout << buf`. -/
  | cout (bytes : List Byte)
  /-- A `read` on standard input returned `rval`. -/
  | readStdin (rval : Int)
  /-- A `read` on the socket returned `rval`. -/
  | readSock (rval : Int)
  /-- Entry of `safe_write` with the `size_t` length `len`. -/
  | safeWrite (len : Nat)
  /-- A call `write(fd, buf, len)`, the `len` bytes at `buf` being `offered`,
  returned `wlen`. -/
  | write (offered : List Byte) (len : Nat) (wlen : Int)
  /-- The call `shutdown(sock, SHUT_WR)`. -/
  | shutdownWr
  /-- The call `connect(sock, ...)` to the given text address and port argument. -/
  | connect (ip : String) (port : String)
  /-- The call `close` on the connection. -/
  | close
  /-- The call `exit(status)`. -/
  | exit (status : Int)
deriving DecidableEq, Repr

/-- The call `read(fd, buf, count)`: the value returned and the buffer afterwards.
At most `count` bytes are stored, at the start of `buf`; a chunk longer than
`count` is cut to its first `count` bytes. -/
def sysRead (count : Nat) (r : ReadResult) (buf : List Byte) : Int × List Byte :=
  match r with
  | .ok chunk => (((chunk.take count).length : Int),
      chunk.take count ++ buf.drop (chunk.take count).length)
  | .error => (-1, buf)

/-! ## server.cpp -/

/-- The variables of `main` in server.cpp that the accept loop works on. -/
structure Session where
  checksum : Nat
  byte_count : Nat
  buf : List Byte
deriving DecidableEq, Repr

/-- One pass of the body of `for (int i = 0; i < rval; i++)` (server.cpp 140-144). -/
def sumStep (buf : List Byte) (acc : Nat × Nat) (i : Nat) : Nat × Nat :=
  ((acc.1 + (buf.getD i 0).val) % 65536, (acc.2 + 1) % 4294967296)

/-- The loop `for (int i = 0; i < rval; i++) { checksum += (uint8_t)buf[i];
byte_count++; }`; a negative `rval` gives no pass. -/
def sumLoop (buf : List Byte) (rval : Int) (checksum byte_count : Nat) : Nat × Nat :=
  (List.range rval.toNat).foldl (sumStep buf) (checksum, byte_count)

/-- The inner `do { ... } while (rval != 0)` of server.cpp (129-146), run on the
script of read results of the connection.  Gives the events, and when the loop
ends the variables and the unread part of the script. -/
def drainLoop : List ReadResult → Session →
    List Event × Option (Session × List ReadResult)
  | [], _ => ([], none)
  | r :: rest, s =>
    let rd := sysRead 2048 r s.buf
    let e1 := if rd.1 < 0 then [Event.readSock rd.1, Event.perror "reading stream message"]
      else [Event.readSock rd.1]
    if rd.1 = 0 then
      (e1 ++ [Event.coutText "Ending connection\n"], some ({ s with buf := rd.2 }, rest))
    else
      let acc := sumLoop rd.2 rd.1 s.checksum s.byte_count
      let run := drainLoop rest { checksum := acc.1, byte_count := acc.2, buf := rd.2 }
      (e1 ++ run.1, run.2)

/-- Sum of the bytes of a sequence, each as an unsigned 8-bit value. -/
def byteSum (bs : List Byte) : Nat := (bs.map Fin.val).sum

/-- The bytes a connection delivers up to its first end-of-stream read, with the
unread rest of the script; `none` when the script has no end-of-stream read. -/
def received : List ReadResult → Option (List Byte × List ReadResult)
  | [] => none
  | .ok chunk :: rest =>
    if chunk.take 2048 = [] then some ([], rest)
    else (received rest).map (fun p => (chunk.take 2048 ++ p.1, p.2))
  | .error :: rest => received rest

/-! ## safe_write (server.cpp 22-35, client.cpp 26-39) -/

/-- The `n` bytes of memory that start at pointer `p`. -/
def slice (mem : List Byte) (p : Int) (n : Nat) : List Byte :=
  (mem.drop p.toNat).take n

/-- The function `safe_write(fd, buf, len)` over the memory `mem`, `buf` being an
offset into it.  `write i len` is the value the `i`-th `write` call on the
descriptor returns when asked for `len` bytes; `idx` numbers the next call and
`fuel` bounds the number of calls.  Gives the `write` calls made and the value
returned (`none` when `fuel` calls did not finish the loop). -/
def safe_write (write : Nat → Nat → Int) (mem : List Byte) :
    Nat → Nat → Int → Nat → List Event × Option Int
  | 0, _, _, len => if len > 0 then ([], none) else ([], some 0)
  | fuel + 1, idx, buf, len =>
    if len > 0 then
      let wlen := write idx len
      if wlen = -1 then ([Event.write (slice mem buf len) len wlen], some (-1))
      else
        let run := safe_write write mem fuel (idx + 1) (buf + wlen)
          (((len : Int) - wlen) % 18446744073709551616).toNat
        (Event.write (slice mem buf len) len wlen :: run.1, run.2)
    else ([], some 0)

/-! ## server.cpp: report and accept loop -/

/-- The text built by `os << "Sum: " << checksum << " Len: " << byte_count << '\n'`
(server.cpp 151-153). -/
def composeReport (checksum byte_count : Nat) : String :=
  "Sum: " ++ toString checksum ++ " Len: " ++ toString byte_count ++ "\n"

/-- The bytes designated by the arguments `ch, sizeof(str)` of the call
`safe_write(msgsock, ch, sizeof(str))` (server.cpp 153-155): `ch` points to the
characters of `str`, their terminating zero and then `heap`; the length is the
constant `sizeofString`, the size of the string object. -/
def reportHanded (sizeofString : Nat) (heap : List Byte) (checksum byte_count : Nat) :
    List Byte :=
  slice (asciiBytes (composeReport checksum byte_count) ++ [0] ++ heap) 0 sizeofString

/-- An accepted connection as the server sees it. -/
structure Conn where
  /-- Text form of the peer address, stored in `buf` by `inet_ntop`. -/
  addr : String
  /-- Peer port. -/
  port : Nat
  /-- Results of the successive `read` calls on the connection. -/
  reads : List ReadResult
  /-- Results of the `write` calls on the connection. -/
  write : Nat → Nat → Int
  /-- Memory that follows the terminating zero of the report's characters. -/
  heap : List Byte

/-- Result of one `accept` call. -/
inductive Accept where
  | failed
  | accepted (c : Conn)

/-- What happened in one accepted connection. -/
structure SessionRecord where
  /-- Read script of the connection. -/
  reads : List ReadResult
  /-- The variables when the drain loop of the connection begins. -/
  start : Session
  /-- The string `str`, once the drain loop has ended. -/
  report : Option String
  /-- The bytes designated by the arguments `ch, sizeof(str)` of `safe_write`. -/
  handed : Option (List Byte)

/-- The `else` branch of the accept loop for one accepted connection
(server.cpp 124-163).  `sizeofString` is the constant `sizeof(std::string)` of
the platform.  Gives the events, the record of the session and the variables
after it (`none` when the session does not come to its end). -/
def serveConn (sizeofString fuel : Nat) (c : Conn) (s : Session) :
    List Event × SessionRecord × Option Session :=
  let ntop := asciiBytes c.addr ++ [0]
  let s0 : Session := { s with buf := ntop ++ s.buf.drop ntop.length }
  let e0 := [Event.coutText
    ("Accepted connection from " ++ c.addr ++ ", port " ++ toString c.port ++ "\n")]
  let d := drainLoop c.reads s0
  match d.2 with
  | none => (e0 ++ d.1, { reads := c.reads, start := s0, report := none, handed := none }, none)
  | some (s1, _) =>
    let str := composeReport s1.checksum s1.byte_count
    let mem := asciiBytes str ++ [0] ++ c.heap
    let w := safe_write c.write mem fuel 0 0 sizeofString
    let rec_ : SessionRecord :=
      { reads := c.reads, start := s0, report := some str,
        handed := some (reportHanded sizeofString c.heap s1.checksum s1.byte_count) }
    match w.2 with
    | none => (e0 ++ d.1 ++ Event.safeWrite sizeofString :: w.1, rec_, none)
    | some ret =>
      let e2 := if ret < 0 then [Event.perror "write failed"] else []
      (e0 ++ d.1 ++ Event.safeWrite sizeofString :: w.1 ++ e2 ++ [Event.close], rec_,
        some { checksum := 0, byte_count := 0, buf := s1.buf })

/-- The accept loop `do { ... } while (true)` of server.cpp (115-164) on a finite
script of `accept` results: the events and the records of the sessions begun. -/
def acceptLoop (sizeofString fuel : Nat) : List Accept → Session →
    List Event × List SessionRecord
  | [], _ => ([], [])
  | .failed :: rest, s =>
    let run := acceptLoop sizeofString fuel rest s
    (Event.perror "accept" :: run.1, run.2)
  | .accepted c :: rest, s =>
    let r := serveConn sizeofString fuel c s
    match r.2.2 with
    | none => (r.1, [r.2.1])
    | some s1 =>
      let run := acceptLoop sizeofString fuel rest s1
      (r.1 ++ run.1, r.2.1 :: run.2)

/-- The variables as `main` of server.cpp declares them (54-56), `buf` holding
whatever the stack holds. -/
def serverInit (buf : List Byte) : Session :=
  { checksum := 0, byte_count := 0, buf := buf }

/-! ## client.cpp -/

/-- The bytes `std::cout << buf` sends for a `char` array: those before the first
zero byte of the memory that starts at `buf`. -/
def cString (mem : List Byte) : List Byte :=
  mem.takeWhile (fun b => b ≠ 0)

/-- The function `print_response` (client.cpp 53-70) on the script of socket
reads; `buf` is its local array and `stack` the memory that follows it. -/
def print_response (stack : List Byte) : List ReadResult → List Byte →
    List Event × Option Int
  | [], _ => ([], none)
  | r :: rest, buf =>
    let rd := sysRead 1024 r buf
    if rd.1 = -1 then
      ([Event.readSock rd.1, Event.perror "reading stream message"], some (-1))
    else if rd.1 > 0 then
      let run := print_response stack rest rd.2
      (Event.readSock rd.1 :: Event.cout (cString (rd.2 ++ stack)) :: run.1, run.2)
    else ([Event.readSock rd.1], some 0)

/-- The loop `do { ... } while (len != 0)` of client.cpp (157-166) on the script
of standard-input reads.  `len` is passed to `safe_write` as a `size_t`.  Gives
the events and, when the loop ends, the number of `write` calls made so far. -/
def forwardLoop (write : Nat → Nat → Int) (stack : List Byte) (fuel : Nat) :
    List ReadResult → Nat → List Byte → List Event × Option Nat
  | [], _, _ => ([], none)
  | r :: rest, idx, buf =>
    let rd := sysRead 2048 r buf
    let e1 := if rd.1 < 0 then [Event.readStdin rd.1, Event.perror "reading to stream socket"]
      else [Event.readStdin rd.1]
    let len := (rd.1 % 18446744073709551616).toNat
    let w := safe_write write (rd.2 ++ stack) fuel idx 0 len
    match w.2 with
    | none => (e1 ++ Event.safeWrite len :: w.1, none)
    | some ret =>
      let e2 := if ret < 0 then [Event.perror "writing on stream socket"] else []
      if rd.1 ≠ 0 then
        let run := forwardLoop write stack fuel rest (idx + w.1.length) rd.2
        (e1 ++ Event.safeWrite len :: w.1 ++ e2 ++ run.1, run.2)
      else (e1 ++ Event.safeWrite len :: w.1 ++ e2, some (idx + w.1.length))

/-- The surroundings of a connected client. -/
structure ClientEnv where
  /-- Results of the successive `read` calls on standard input. -/
  stdin : List ReadResult
  /-- Results of the `write` calls on the socket. -/
  write : Nat → Nat → Int
  /-- Results of the successive `read` calls on the socket. -/
  sock : List ReadResult
  /-- Initial contents of `buf` of `main`. -/
  buf : List Byte
  /-- Memory that follows `buf` of `main`. -/
  stack : List Byte
  /-- Initial contents of `buf` of `print_response`. -/
  rbuf : List Byte
  /-- Memory that follows `buf` of `print_response`. -/
  rstack : List Byte

/-- The part of `main` of client.cpp after a successful `connect` (155-175):
forward loop, `shutdown`, `print_response`, `close`, `return 0`. -/
def clientSession (env : ClientEnv) (fuel : Nat) : List Event × Option Int :=
  let f := forwardLoop env.write env.stack fuel env.stdin 0 env.buf
  match f.2 with
  | none => (f.1, none)
  | some _ =>
    let p := print_response env.rstack env.sock env.rbuf
    match p.2 with
    | none => (f.1 ++ Event.shutdownWr :: p.1, none)
    | some _ => (f.1 ++ Event.shutdownWr :: p.1 ++ [Event.close], some 0)

/-- The function `usage` (client.cpp 75-81). -/
def usage : List Event :=
  [Event.cerrText "Usage: client [-s server-ip] server-port\n",
   Event.cerrText "\t-s Specify server's IPv4 number.\n",
   Event.cerrText "\tserver-port: Server port number to which client must connect.\n",
   Event.exit 1]

/-- A command line as `main` of client.cpp sees it through `getopt`. -/
structure CommandLine where
  /-- The successive values `getopt(argc, argv, "s:")` returns before `-1`, each
  with the `optarg` of that call. -/
  opts : List (Char × String)
  /-- The argument `argv[optind]` after the option loop, `none` for `NULL`. -/
  port : Option String

/-- The option loop of client.cpp (102-121) from the current value of
`server_ip`; `none` when `usage` ended the program. -/
def getoptLoop : List (Char × String) → Option String → Option (Option String)
  | [], ip => some ip
  | (c, optarg) :: rest, ip =>
    if c = 's' then getoptLoop rest (some optarg)
    else if c = '?' then none
    else getoptLoop rest ip

/-- The function `main` of client.cpp.  `inet_pton` gives the result of the
address parser on a text, `sockFd` the result of `socket`, `connectRes` that of
`connect`, `server_ip0` the value the pointer `server_ip` has before the option
loop.  Gives the events and the exit status (`none` when the run is blocked). -/
def clientMain (inet_pton : String → Int) (sockFd connectRes : Int)
    (server_ip0 : Option String) (cl : CommandLine) (env : ClientEnv) (fuel : Nat) :
    List Event × Option Int :=
  match getoptLoop cl.opts server_ip0 with
  | none => (usage, some 1)
  | some ip =>
    let server_ip := ip.getD "127.0.0.1"
    match cl.port with
    | none => (usage, some 1)
    | some port =>
      if sockFd < 0 then ([Event.perror "opening stream socket", Event.exit 1], some 1)
      else if inet_pton server_ip ≤ 0 then
        ([Event.cerrText (server_ip ++ ": invalid address/format\n"), Event.exit 2], some 2)
      else if connectRes < 0 then
        ([Event.connect server_ip port, Event.perror "connecting stream socket",
          Event.exit 1], some 1)
      else
        let run := clientSession env fuel
        (Event.connect server_ip port :: run.1, run.2)

/-! ## Reading traces -/

/-- The bytes a `write` call took: the first `wlen` of those offered. -/
def accepted : Event → List Byte
  | .write offeredBytes _ wlen => offeredBytes.take wlen.toNat
  | _ => []

/-- The bytes the transport took over a run, in order. -/
def written (t : List Event) : List Byte :=
  (t.map accepted).flatten

/-- A `write` call that returned `-1`. -/
def failedWrite : Event → Prop
  | .write _ _ wlen => wlen = -1
  | _ => False

/-- The runs of `safe_write` from pointer `b` with `len` bytes to go: the list of
its `write` calls and the value returned. -/
inductive WriteRun (mem : List Byte) : Nat → Nat → List Event → Int → Prop where
  | done (b : Nat) : WriteRun mem b 0 [] 0
  | fail (b len : Nat) (h : 0 < len) :
      WriteRun mem b len [Event.write (slice mem b len) len (-1)] (-1)
  | step (b len k : Nat) (calls : List Event) (ret : Int) (h1 : 1 ≤ k) (h2 : k ≤ len)
      (run : WriteRun mem (b + k) (len - k) calls ret) :
      WriteRun mem b len (Event.write (slice mem b len) len k :: calls) ret

/-- The events of the forward loop when nothing fails: reads of standard input,
calls of `safe_write` and `write` calls. -/
def forwardEvent : Event → Prop
  | .readStdin _ => True
  | .safeWrite _ => True
  | .write _ _ _ => True
  | _ => False

/-- The events of `print_response` and of the final `close`. -/
def responseEvent : Event → Prop
  | .readSock _ => True
  | .cout _ => True
  | .perror _ => True
  | .close => True
  | _ => False

/-! ## Concrete runs -/

/-- A connection that sends `"ABCDE"` and then closes its write side, and takes
every byte it is offered; 20 bytes of other data follow the report in memory. -/
def connABCDE : Conn :=
  { addr := "127.0.0.1", port := 40000,
    reads := [ReadResult.ok [65, 66, 67, 68, 69], ReadResult.ok []],
    write := fun _ l => (l : Int),
    heap := [1, 2, 3, 4, 5, 6, 7, 8, 9, 10, 11, 12, 13, 14, 15, 16, 17, 18, 19, 20] }

/-- A connection that sends the bytes 200, 100 after a failed read and whose
every `write` fails. -/
def connRefusing : Conn :=
  { addr := "10.0.0.2", port := 40001,
    reads := [ReadResult.error, ReadResult.ok [200, 100], ReadResult.ok []],
    write := fun _ _ => -1,
    heap := [] }

/-- A failed accept, the session of `connABCDE`, a failed accept, the session of
`connRefusing`. -/
def twoSessions : List Accept :=
  [Accept.failed, Accept.accepted connABCDE, Accept.failed, Accept.accepted connRefusing]

/-- An address parser that accepts `127.0.0.1` only. -/
def ptonLocalOnly (text : String) : Int :=
  if text = "127.0.0.1" then 1 else 0

/-- The command line `client -s 10.0.0.1 -s 999.1.1.1 8080`. -/
def twoAddressLine : CommandLine :=
  { opts := [('s', "10.0.0.1"), ('s', "999.1.1.1")], port := some "8080" }

/-- A client environment with no input and no response. -/
def idleEnv : ClientEnv :=
  { stdin := [], write := fun _ l => (l : Int), sock := [], buf := [], stack := [],
    rbuf := [], rstack := [] }

/-- A client environment with input `[1, 2, 3]`, `[4]`, a socket that takes at
most two bytes per `write`, and the response `"S\n"`. -/
def smallEnv : ClientEnv :=
  { stdin := [ReadResult.ok [1, 2, 3], ReadResult.ok [4], ReadResult.ok []],
    write := fun _ l => ((min l 2 : Nat) : Int),
    sock := [ReadResult.ok [83, 10], ReadResult.ok []],
    buf := [], stack := [], rbuf := [0, 0, 0], rstack := [] }

/-! ### Lemmas on the drain loop -/

/-- The summing loop over a chunk that was stored at the start of the buffer. -/
theorem sumLoop_chunk (c tail : List Byte) (cs bc : Nat)
    (hcs : cs < 65536) (hbc : bc < 4294967296) :
    sumLoop (c ++ tail) (c.length : Int) cs bc
      = ((cs + byteSum c) % 65536, (bc + c.length) % 4294967296) := by
  unfold sumLoop
  simp only [Int.toNat_ofNat]
  induction c using List.reverseRecOn with
  | nil => simp [byteSum, Nat.mod_eq_of_lt hcs, Nat.mod_eq_of_lt hbc]
  | append_singleton l a ih =>
    have hstep : ∀ (n : Nat) (acc : Nat × Nat), n ≤ l.length →
        (List.range n).foldl (sumStep (l ++ [a] ++ tail)) acc
          = (List.range n).foldl (sumStep (l ++ tail)) acc := by
      intro n
      induction n with
      | zero => intro acc _; rfl
      | succ k ihk =>
        intro acc hk
        rw [List.range_succ, List.foldl_append, List.foldl_append, ihk acc (by omega)]
        simp only [List.foldl_cons, List.foldl_nil, sumStep]
        have h1 : (l ++ [a] ++ tail).getD k 0 = (l ++ tail).getD k 0 := by
          rw [List.append_assoc, List.getD_append _ _ _ _ (by omega),
            List.getD_append _ _ _ _ (by omega)]
        rw [h1]
    rw [List.length_append, List.length_singleton, List.range_succ, List.foldl_append,
      hstep l.length _ (le_refl _), ih]
    simp only [List.foldl_cons, List.foldl_nil, sumStep]
    have h2 : (l ++ [a] ++ tail).getD l.length 0 = a := by
      rw [List.append_assoc, List.getD_append_right _ _ _ _ (le_refl _)]
      simp
    rw [h2]
    simp only [byteSum, List.map_append, List.sum_append, List.map_cons, List.map_nil,
      List.sum_cons, List.sum_nil, add_zero]
    refine Prod.ext ?_ ?_
    · simp only [Nat.add_mod, Nat.mod_mod, add_assoc]
      omega
    · simp only [Nat.add_mod, Nat.mod_mod, add_assoc]
      omega

/-- The summing loop makes no pass for `rval = -1`. -/
theorem sumLoop_neg (buf : List Byte) (cs bc : Nat) :
    sumLoop buf (-1) cs bc = (cs, bc) := by
  simp [sumLoop]

/-- What the drain loop computes on any script: it ends exactly when the script
has an end-of-stream read, with the sum and count of the bytes delivered before
it added to the starting values. -/
theorem drainLoop_received (evs : List ReadResult) (s : Session)
    (hcs : s.checksum < 65536) (hbc : s.byte_count < 4294967296) :
    (drainLoop evs s).2.map (fun q => (q.1.checksum, q.1.byte_count, q.2))
      = (received evs).map (fun p =>
          ((s.checksum + byteSum p.1) % 65536,
           (s.byte_count + p.1.length) % 4294967296, p.2)) := by
  induction evs generalizing s with
  | nil => simp [drainLoop, received]
  | cons r rest ih =>
    cases r with
    | error =>
      have h := ih s hcs hbc
      simp only [drainLoop, sysRead, received, sumLoop_neg]
      simpa using h
    | ok chunk =>
      by_cases hz : chunk.take 2048 = []
      · simp [drainLoop, sysRead, received, hz, byteSum, Nat.mod_eq_of_lt hcs,
          Nat.mod_eq_of_lt hbc]
      · have hlen : ((chunk.take 2048).length : Int) ≠ 0 := by
          intro h0
          exact hz (List.length_eq_zero.mp (by exact_mod_cast h0))
        have hsum := sumLoop_chunk (chunk.take 2048)
          (s.buf.drop (chunk.take 2048).length) s.checksum s.byte_count hcs hbc
        have h := ih
          { checksum := (s.checksum + byteSum (chunk.take 2048)) % 65536,
            byte_count := (s.byte_count + (chunk.take 2048).length) % 4294967296,
            buf := chunk.take 2048 ++ s.buf.drop (chunk.take 2048).length }
          (Nat.mod_lt _ (by norm_num)) (Nat.mod_lt _ (by norm_num))
        simp only [drainLoop, sysRead, received, hz, hlen, if_false, hsum]
        rw [h]
        cases received rest with
        | none => rfl
        | some p =>
          simp only [Option.map_some', byteSum, List.map_append, List.sum_append,
            List.length_append]
          congr 1
          refine Prod.ext ?_ (Prod.ext ?_ rfl)
          · show (_ % 65536 + _) % 65536 = (_ + (_ + _)) % 65536
            omega
          · show (_ % 4294967296 + _) % 4294967296 = (_ + (_ + _)) % 4294967296
            omega

/-- The bytes received from chunks that fit the buffer, followed by end of stream. -/
theorem received_chunks (chunks : List (List Byte)) (rest : List ReadResult)
    (hpos : ∀ c ∈ chunks, 0 < c.length ∧ c.length ≤ 2048) :
    received (chunks.map ReadResult.ok ++ ReadResult.ok [] :: rest)
      = some (chunks.flatten, rest) := by
  induction chunks with
  | nil => simp [received]
  | cons c cs ih =>
    have hc := hpos c (List.mem_cons_self _ _)
    have htake : c.take 2048 = c := List.take_of_length_le hc.2
    have hne : c ≠ [] := by
      intro h
      rw [h] at hc
      simp at hc
    have ih2 := ih (fun d hd => hpos d (List.mem_cons_of_mem _ hd))
    simp [received, htake, hne, ih2]

/-- The drain loop from the initial variables, in terms of `received`. -/
theorem drainLoop_init (evs : List ReadResult) (buf : List Byte) :
    (drainLoop evs (serverInit buf)).2.map (fun q => (q.1.checksum, q.1.byte_count, q.2))
      = (received evs).map (fun p =>
          (byteSum p.1 % 65536, p.1.length % 4294967296, p.2)) := by
  have h := drainLoop_received evs (serverInit buf) (by simp [serverInit])
    (by simp [serverInit])
  simpa [serverInit] using h

/-- The drain loop on chunks followed by end of stream, from the initial variables. -/
theorem drainLoop_chunks (chunks : List (List Byte)) (buf : List Byte)
    (hpos : ∀ c ∈ chunks, 0 < c.length ∧ c.length ≤ 2048) :
    ∃ s, (drainLoop (chunks.map ReadResult.ok ++ [ReadResult.ok []]) (serverInit buf)).2
        = some (s, [])
      ∧ s.checksum = byteSum chunks.flatten % 65536
      ∧ s.byte_count = chunks.flatten.length % 4294967296 := by
  have h := drainLoop_init (chunks.map ReadResult.ok ++ [ReadResult.ok []]) buf
  rw [received_chunks chunks [] hpos] at h
  cases hd : (drainLoop (chunks.map ReadResult.ok ++ [ReadResult.ok []]) (serverInit buf)).2 with
  | none => rw [hd] at h; simp at h
  | some q =>
    rw [hd] at h
    simp only [Option.map_some', Option.some.injEq, Prod.mk.injEq] at h
    obtain ⟨h1, h2, h3⟩ := h
    refine ⟨q.1, ?_, h1, h2⟩
    rw [← h3]

/-! ### Lemmas on safe_write -/

/-- Nothing is written for `len = 0`. -/
theorem safe_write_zero (write : Nat → Nat → Int) (mem : List Byte) (fuel idx : Nat)
    (buf : Int) : safe_write write mem fuel idx buf 0 = ([], some 0) := by
  cases fuel <;> simp [safe_write]

/-- With a `write` that fails or takes at least one byte, `safe_write` returns
within `len` calls, and its calls form a `WriteRun`. -/
theorem safe_write_run (write : Nat → Nat → Int) (mem : List Byte)
    (hw : ∀ i l, 0 < l → write i l = -1 ∨ (1 ≤ write i l ∧ write i l ≤ l))
    (len : Nat) : ∀ (idx b : Nat), len < 18446744073709551616 →
    ∃ calls ret, WriteRun mem b len calls ret ∧
      ∀ fuel, len ≤ fuel → safe_write write mem fuel idx (b : Int) len = (calls, some ret) := by
  induction len using Nat.strong_induction_on with
  | _ len ih =>
    intro idx b hlen
    rcases Nat.eq_zero_or_pos len with h0 | hpos
    · subst h0
      exact ⟨[], 0, WriteRun.done b, fun fuel _ => safe_write_zero write mem fuel idx b⟩
    · rcases hw idx len hpos with hfail | ⟨hk1, hk2⟩
      · refine ⟨[Event.write (slice mem b len) len (-1)], -1, WriteRun.fail b len hpos, ?_⟩
        intro fuel hfuel
        obtain ⟨f, rfl⟩ : ∃ f, fuel = f + 1 := ⟨fuel - 1, by omega⟩
        simp [safe_write, hpos, hfail]
      · obtain ⟨k, hk⟩ : ∃ k : Nat, write idx len = (k : Int) :=
          ⟨(write idx len).toNat, by omega⟩
        have hk1n : 1 ≤ k := by omega
        have hk2n : k ≤ len := by omega
        obtain ⟨calls, ret, hrun, hfu⟩ := ih (len - k) (by omega) (idx + 1) (b + k) (by omega)
        refine ⟨Event.write (slice mem b len) len k :: calls, ret,
          WriteRun.step b len k calls ret hk1n hk2n hrun, ?_⟩
        intro fuel hfuel
        obtain ⟨f, rfl⟩ : ∃ f, fuel = f + 1 := ⟨fuel - 1, by omega⟩
        have hne : (k : Int) ≠ -1 := by omega
        have hnew : (((len : Int) - (k : Int)) % 18446744073709551616).toNat = len - k := by
          omega
        have hrec := hfu f (by omega)
        simp only [Nat.cast_add] at hrec
        simp [safe_write, hpos, hk, hne, hnew, hrec]

/-- A slice is what a `write` takes of it followed by the rest. -/
theorem slice_split (mem : List Byte) (b len k : Nat) (h2 : k ≤ len) :
    (slice mem b len).take k ++ slice mem (b + k : Nat) (len - k) = slice mem b len := by
  simp only [slice, Int.toNat_ofNat]
  rw [List.take_take, Nat.min_eq_left h2, ← List.drop_drop]
  have h := List.take_add (mem.drop b) k (len - k)
  rw [Nat.add_sub_cancel' h2] at h
  exact h.symm

/-- A slice inside the memory has the length asked for. -/
theorem slice_length (mem : List Byte) (b len : Nat) (h : b + len ≤ mem.length) :
    (slice mem b len).length = len := by
  simp only [slice, Int.toNat_ofNat, List.length_take, List.length_drop]
  omega

/-- The bytes taken over a run, event by event. -/
theorem written_cons (e : Event) (t : List Event) :
    written (e :: t) = accepted e ++ written t := by
  simp [written]

/-- A run that returns 0 has taken the whole buffer. -/
theorem writeRun_written (mem : List Byte) (b len : Nat) (calls : List Event) (ret : Int)
    (run : WriteRun mem b len calls ret) : ret = 0 → written calls = slice mem b len := by
  induction run with
  | done b => intro _; simp [written, slice]
  | fail b len h => intro h0; simp at h0
  | step b len k calls ret h1 h2 run ih =>
    intro h0
    rw [written_cons, ih h0]
    simp only [accepted, Int.toNat_ofNat]
    exact slice_split mem b len k h2

/-- Every call of a run is offered the bytes not yet taken. -/
theorem writeRun_offered (mem : List Byte) (b len : Nat) (calls : List Event) (ret : Int)
    (run : WriteRun mem b len calls ret) : b + len ≤ mem.length →
    ∀ pre e post, calls = pre ++ e :: post →
      ∃ o n k, e = Event.write o n k ∧ written pre ++ o = slice mem b len
        ∧ (written pre).length + n = len := by
  induction run with
  | done b => intro _ pre e post h; simp at h
  | fail b len h =>
    intro _ pre e post hsplit
    cases pre with
    | nil =>
      simp only [List.nil_append, List.cons.injEq] at hsplit
      exact ⟨_, _, _, hsplit.1.symm, by simp [written], by simp [written]⟩
    | cons x xs => simp at hsplit
  | step b len k calls ret h1 h2 run ih =>
    intro hmem pre e post hsplit
    cases pre with
    | nil =>
      simp only [List.nil_append, List.cons.injEq] at hsplit
      exact ⟨_, _, _, hsplit.1.symm, by simp [written], by simp [written]⟩
    | cons x xs =>
      simp only [List.cons_append, List.cons.injEq] at hsplit
      obtain ⟨o, n, j, he, hcat, hlen⟩ := ih (by omega) xs e post hsplit.2
      refine ⟨o, n, j, he, ?_, ?_⟩
      · rw [written_cons, List.append_assoc, hcat, ← hsplit.1]
        simp only [accepted, Int.toNat_ofNat]
        exact slice_split mem b len k h2
      · rw [written_cons, List.length_append, ← hsplit.1]
        simp only [accepted, Int.toNat_ofNat, List.length_take,
          slice_length mem b len hmem]
        omega

/-- A run returns 0 with no failed call, or -1 at its first and last failed call. -/
theorem writeRun_result (mem : List Byte) (b len : Nat) (calls : List Event) (ret : Int)
    (run : WriteRun mem b len calls ret) :
    (ret = 0 ∧ ∀ e ∈ calls, ¬ failedWrite e)
      ∨ (ret = -1 ∧ ∃ pre o n, calls = pre ++ [Event.write o n (-1)]
          ∧ ∀ e ∈ pre, ¬ failedWrite e) := by
  induction run with
  | done b => left; simp
  | fail b len h => right; exact ⟨rfl, [], _, _, rfl, by simp⟩
  | step b len k calls ret h1 h2 run ih =>
    have hk : ¬ failedWrite (Event.write (slice mem b len) len (k : Int)) := by
      simp only [failedWrite]
      omega
    rcases ih with ⟨h0, hall⟩ | ⟨hm, pre, o, n, hcalls, hpre⟩
    · left
      refine ⟨h0, ?_⟩
      intro e he
      rcases List.mem_cons.mp he with rfl | he
      · exact hk
      · exact hall e he
    · right
      refine ⟨hm, Event.write (slice mem b len) len k :: pre, o, n, by rw [hcalls]; rfl, ?_⟩
      intro e he
      rcases List.mem_cons.mp he with rfl | he
      · exact hk
      · exact hpre e he

/-! ### Lemmas on the accept loop -/

/-- The report text that the bytes received on a connection determine. -/
theorem serveConn_record (sizeofString fuel : Nat) (c : Conn) (s : Session)
    (hcs : s.checksum = 0) (hbc : s.byte_count = 0) :
    (serveConn sizeofString fuel c s).2.1.start.checksum = 0
      ∧ (serveConn sizeofString fuel c s).2.1.start.byte_count = 0
      ∧ (serveConn sizeofString fuel c s).2.1.report
          = (received (serveConn sizeofString fuel c s).2.1.reads).map
              (fun p => composeReport (byteSum p.1 % 65536) (p.1.length % 4294967296))
      ∧ ∀ s1, (serveConn sizeofString fuel c s).2.2 = some s1 →
          s1.checksum = 0 ∧ s1.byte_count = 0 := by
  obtain ⟨cs, bc, buf⟩ := s
  simp only at hcs hbc
  subst hcs hbc
  have hd := drainLoop_received c.reads
    { checksum := 0, byte_count := 0,
      buf := (asciiBytes c.addr ++ [0]) ++ buf.drop (asciiBytes c.addr ++ [0]).length }
    (by simp) (by simp)
  simp only [Nat.zero_add] at hd
  unfold serveConn
  simp only
  cases hdr : (drainLoop c.reads
      { checksum := 0, byte_count := 0,
        buf := (asciiBytes c.addr ++ [0]) ++ buf.drop (asciiBytes c.addr ++ [0]).length }).2 with
  | none =>
    rw [hdr] at hd
    cases hr : received c.reads with
    | none => simp
    | some p => rw [hr] at hd; simp at hd
  | some q =>
    rw [hdr] at hd
    cases hr : received c.reads with
    | none => rw [hr] at hd; simp at hd
    | some p =>
      rw [hr] at hd
      simp only [Option.map_some', Option.some.injEq, Prod.mk.injEq] at hd
      obtain ⟨h1, h2, _⟩ := hd
      cases hw : (safe_write c.write
          (asciiBytes (composeReport q.1.checksum q.1.byte_count) ++ [0] ++ c.heap)
          fuel 0 0 sizeofString).2 with
      | none => simp only [hw]; simp [h1, h2, hr]
      | some ret => simp only [hw]; simp [h1, h2, hr]

/-- Every session of the accept loop starts from zero totals, when the loop does. -/
theorem acceptLoop_records (sizeofString fuel : Nat) (accepts : List Accept) :
    ∀ s : Session, s.checksum = 0 → s.byte_count = 0 →
    ∀ r ∈ (acceptLoop sizeofString fuel accepts s).2,
      r.start.checksum = 0 ∧ r.start.byte_count = 0
      ∧ r.report = (received r.reads).map
          (fun p => composeReport (byteSum p.1 % 65536) (p.1.length % 4294967296)) := by
  induction accepts with
  | nil => intro s _ _ r hr; simp [acceptLoop] at hr
  | cons a rest ih =>
    intro s hcs hbc r hr
    cases a with
    | failed =>
      simp only [acceptLoop] at hr
      exact ih s hcs hbc r hr
    | accepted c =>
      obtain ⟨h1, h2, h3, h4⟩ := serveConn_record sizeofString fuel c s hcs hbc
      simp only [acceptLoop] at hr
      cases hnext : (serveConn sizeofString fuel c s).2.2 with
      | none =>
        rw [hnext] at hr
        simp only [List.mem_singleton] at hr
        subst hr
        exact ⟨h1, h2, h3⟩
      | some s1 =>
        rw [hnext] at hr
        simp only [List.mem_cons] at hr
        rcases hr with rfl | hr
        · exact ⟨h1, h2, h3⟩
        · exact ih s1 (h4 s1 hnext).1 (h4 s1 hnext).2 r hr

/-! ### Lemmas on the client -/

/-- Options other than `s` leave `server_ip` as it is, or end in `usage`. -/
theorem getoptLoop_no_s (post : List (Char × String)) (hpost : ∀ o ∈ post, o.1 ≠ 's') :
    ∀ ip, (getoptLoop post ip = none ∨ getoptLoop post ip = some ip)
      ∧ ((∀ o ∈ post, o.1 ≠ '?') → getoptLoop post ip = some ip) := by
  induction post with
  | nil => intro ip; simp [getoptLoop]
  | cons o rest ih =>
    intro ip
    obtain ⟨c, arg⟩ := o
    have hc : c ≠ 's' := hpost (c, arg) (List.mem_cons_self _ _)
    have ih2 := ih (fun o ho => hpost o (List.mem_cons_of_mem _ ho)) ip
    by_cases hq : c = '?'
    · subst hq
      refine ⟨Or.inl (by simp [getoptLoop]), ?_⟩
      intro h
      exact absurd rfl (h ('?', arg) (List.mem_cons_self _ _))
    · refine ⟨by simpa [getoptLoop, hc, hq] using ih2.1, ?_⟩
      intro h
      have := ih2.2 (fun o ho => h o (List.mem_cons_of_mem _ ho))
      simpa [getoptLoop, hc, hq] using this

/-- The option loop ends with the last `-s` value in `server_ip`, or in `usage`. -/
theorem getoptLoop_last_s (pre post : List (Char × String)) (v : String)
    (hpost : ∀ o ∈ post, o.1 ≠ 's') :
    ∀ ip, (getoptLoop (pre ++ ('s', v) :: post) ip = none
        ∨ getoptLoop (pre ++ ('s', v) :: post) ip = some (some v))
      ∧ ((∀ o ∈ pre ++ ('s', v) :: post, o.1 ≠ '?') →
          getoptLoop (pre ++ ('s', v) :: post) ip = some (some v)) := by
  induction pre with
  | nil =>
    intro ip
    have h := getoptLoop_no_s post hpost (some v)
    refine ⟨by simpa [getoptLoop] using h.1, ?_⟩
    intro hq
    have := h.2 (fun o ho => hq o (by simp [ho]))
    simpa [getoptLoop] using this
  | cons o rest ih =>
    intro ip
    obtain ⟨c, arg⟩ := o
    by_cases hc : c = 's'
    · subst hc
      have h := ih (some arg)
      refine ⟨by simpa [getoptLoop] using h.1, ?_⟩
      intro hq
      have := h.2 (fun o ho => hq o (List.mem_cons_of_mem _ ho))
      simpa [getoptLoop] using this
    · by_cases hq : c = '?'
      · subst hq
        refine ⟨Or.inl (by simp [getoptLoop]), ?_⟩
        intro h
        exact absurd rfl (h ('?', arg) (List.mem_cons_self _ _))
      · have h := ih ip
        refine ⟨by simpa [getoptLoop, hc, hq] using h.1, ?_⟩
        intro hall
        have := h.2 (fun o ho => hall o (List.mem_cons_of_mem _ ho))
        simpa [getoptLoop, hc, hq] using this

/-- With a `write` that always takes at least one byte, `safe_write` returns 0
within `len` calls. -/
theorem safe_write_run_ok (write : Nat → Nat → Int) (mem : List Byte)
    (hw : ∀ i l, 0 < l → 1 ≤ write i l ∧ write i l ≤ l)
    (len : Nat) : ∀ (idx b : Nat), len < 18446744073709551616 →
    ∃ calls, WriteRun mem b len calls 0 ∧
      ∀ fuel, len ≤ fuel → safe_write write mem fuel idx (b : Int) len = (calls, some 0) := by
  induction len using Nat.strong_induction_on with
  | _ len ih =>
    intro idx b hlen
    rcases Nat.eq_zero_or_pos len with h0 | hpos
    · subst h0
      exact ⟨[], WriteRun.done b, fun fuel _ => safe_write_zero write mem fuel idx b⟩
    · obtain ⟨hk1, hk2⟩ := hw idx len hpos
      obtain ⟨k, hk⟩ : ∃ k : Nat, write idx len = (k : Int) :=
        ⟨(write idx len).toNat, by omega⟩
      have hk1n : 1 ≤ k := by omega
      have hk2n : k ≤ len := by omega
      obtain ⟨calls, hrun, hfu⟩ := ih (len - k) (by omega) (idx + 1) (b + k) (by omega)
      refine ⟨Event.write (slice mem b len) len k :: calls,
        WriteRun.step b len k calls 0 hk1n hk2n hrun, ?_⟩
      intro fuel hfuel
      obtain ⟨f, rfl⟩ : ∃ f, fuel = f + 1 := ⟨fuel - 1, by omega⟩
      have hne : (k : Int) ≠ -1 := by omega
      have hnew : (((len : Int) - (k : Int)) % 18446744073709551616).toNat = len - k := by
        omega
      have hrec := hfu f (by omega)
      simp only [Nat.cast_add] at hrec
      simp [safe_write, hpos, hk, hne, hnew, hrec]

/-- A run of `safe_write` consists of `write` calls. -/
theorem writeRun_events (mem : List Byte) (b len : Nat) (calls : List Event) (ret : Int)
    (run : WriteRun mem b len calls ret) : ∀ e ∈ calls, forwardEvent e := by
  induction run with
  | done b => intro e he; simp at he
  | fail b len h => intro e he; simp at he; subst he; trivial
  | step b len k calls ret h1 h2 run ih =>
    intro e he
    rcases List.mem_cons.mp he with rfl | he
    · trivial
    · exact ih e he

/-- The bytes taken over two runs in sequence. -/
theorem written_append (t u : List Event) : written (t ++ u) = written t ++ written u := by
  simp [written]

/-- The function `print_response` only reads the socket, prints and logs. -/
theorem print_response_events (stack : List Byte) (sock : List ReadResult) :
    ∀ buf, ∀ e ∈ (print_response stack sock buf).1, responseEvent e := by
  induction sock with
  | nil => intro buf e he; simp [print_response] at he
  | cons r rest ih =>
    intro buf e he
    simp only [print_response] at he
    split at he
    · simp only [List.mem_cons, List.mem_singleton, List.not_mem_nil, or_false] at he
      rcases he with rfl | rfl <;> trivial
    · split at he
      · simp only [List.mem_cons] at he
        rcases he with rfl | rfl | he
        · trivial
        · trivial
        · exact ih _ e he
      · simp only [List.mem_singleton] at he
        subst he
        trivial

/-- The forward loop on chunks followed by end of input, every `write` taking
at least one byte. -/
theorem forwardLoop_chunks (write : Nat → Nat → Int) (stack : List Byte) (fuel : Nat)
    (hw : ∀ i l, 0 < l → 1 ≤ write i l ∧ write i l ≤ l) (hfuel : 2048 ≤ fuel)
    (chunks : List (List Byte)) (hpos : ∀ c ∈ chunks, 0 < c.length ∧ c.length ≤ 2048) :
    ∀ (idx : Nat) (buf : List Byte), ∃ fwd n,
      forwardLoop write stack fuel (chunks.map ReadResult.ok ++ [ReadResult.ok []]) idx buf
          = (fwd ++ [Event.readStdin 0, Event.safeWrite 0], some n)
        ∧ written fwd = chunks.flatten
        ∧ ∀ e ∈ fwd, forwardEvent e := by
  induction chunks with
  | nil =>
    intro idx buf
    refine ⟨[], idx, ?_, by simp [written], by simp⟩
    simp [forwardLoop, sysRead, safe_write_zero]
  | cons c cs ih =>
    intro idx buf
    have hc := hpos c (List.mem_cons_self _ _)
    have htake : c.take 2048 = c := List.take_of_length_le hc.2
    obtain ⟨calls, hrun, hfu⟩ := safe_write_run_ok write
      (c ++ buf.drop c.length ++ stack) hw c.length idx 0 (by omega)
    have hsw := hfu fuel (by omega)
    simp only [Nat.cast_zero] at hsw
    have hwr : written calls = c := by
      rw [writeRun_written _ _ _ _ _ hrun rfl]
      simp [slice, List.append_assoc]
    obtain ⟨fwd, n, hfwd, hwf, hev⟩ :=
      ih (fun d hd => hpos d (List.mem_cons_of_mem _ hd)) (idx + calls.length)
        (c ++ buf.drop c.length)
    have hlen : (((c.length : Nat) : Int) % 18446744073709551616).toNat = c.length := by
      omega
    have hnz : ((c.length : Nat) : Int) ≠ 0 := by omega
    have hnn : ¬ ((c.length : Nat) : Int) < 0 := by omega
    refine ⟨Event.readStdin c.length :: Event.safeWrite c.length :: (calls ++ fwd), n,
      ?_, ?_, ?_⟩
    · have hne : c ≠ [] := by
        intro h
        rw [h] at hc
        simp at hc
      simp only [List.map_cons, List.cons_append, forwardLoop, sysRead, htake, hlen, hsw,
        hnz, hnn]
      simp [hne, hfwd]
    · rw [written_cons, written_cons, written_append, hwr, hwf]
      simp [accepted]
    · intro e he
      simp only [List.mem_cons, List.mem_append] at he
      rcases he with rfl | rfl | he | he
      · trivial
      · trivial
      · exact writeRun_events _ _ _ _ _ hrun e he
      · exact hev e he

/-! ## The claims -/

/-- C1: for chunks of positive length (at most the 2048 bytes a read can store)
whose concatenation `B` has length `L < 2^32`, delivered as successive reads
followed by a read of 0, the drain loop started from `checksum = 0`,
`byte_count = 0` ends, having used the whole script, with `byte_count = L` and
`checksum = (sum of the bytes of B) mod 65536`. -/
theorem drain_loop_totals (chunks : List (List Byte)) (buf : List Byte)
    (hpos : ∀ c ∈ chunks, 0 < c.length ∧ c.length ≤ 2048)
    (hL : chunks.flatten.length < 4294967296) :
    ∃ s, (drainLoop (chunks.map ReadResult.ok ++ [ReadResult.ok []]) (serverInit buf)).2
        = some (s, [])
      ∧ s.byte_count = chunks.flatten.length
      ∧ s.checksum = byteSum chunks.flatten % 65536 := by
  obtain ⟨s, hs, hc, hb⟩ := drainLoop_chunks chunks buf hpos
  exact ⟨s, hs, by rw [hb, Nat.mod_eq_of_lt hL], hc⟩

/-- The drain loop on the chunks `AB`, `CDE` and an empty initial buffer. -/
theorem drain_loop_totals_witness :
    ∃ s, (drainLoop (([[65, 66], [67, 68, 69]] : List (List Byte)).map ReadResult.ok
          ++ [ReadResult.ok []]) (serverInit [])).2 = some (s, [])
      ∧ s.byte_count = ([[65, 66], [67, 68, 69]] : List (List Byte)).flatten.length
      ∧ s.checksum = byteSum ([[65, 66], [67, 68, 69]] : List (List Byte)).flatten % 65536 :=
  drain_loop_totals [[65, 66], [67, 68, 69]] []
    (by intro c hc; simp at hc; rcases hc with rfl | rfl <;> decide) (by decide)

/-- C5: two ways of cutting the same byte sequence into non-empty chunks, each
delivered as successive reads followed by a read of 0, end the drain loop with
the same checksum and byte_count, hence with the same report text. -/
theorem drain_loop_fragmentation (xs ys : List (List Byte)) (bufx bufy : List Byte)
    (hx : ∀ c ∈ xs, 0 < c.length ∧ c.length ≤ 2048)
    (hy : ∀ c ∈ ys, 0 < c.length ∧ c.length ≤ 2048)
    (hxy : xs.flatten = ys.flatten) :
    ∃ sx sy,
      (drainLoop (xs.map ReadResult.ok ++ [ReadResult.ok []]) (serverInit bufx)).2
        = some (sx, [])
      ∧ (drainLoop (ys.map ReadResult.ok ++ [ReadResult.ok []]) (serverInit bufy)).2
        = some (sy, [])
      ∧ sx.checksum = sy.checksum ∧ sx.byte_count = sy.byte_count
      ∧ composeReport sx.checksum sx.byte_count
        = composeReport sy.checksum sy.byte_count := by
  obtain ⟨sx, hsx, hcx, hbx⟩ := drainLoop_chunks xs bufx hx
  obtain ⟨sy, hsy, hcy, hby⟩ := drainLoop_chunks ys bufy hy
  have hc : sx.checksum = sy.checksum := by rw [hcx, hcy, hxy]
  have hb : sx.byte_count = sy.byte_count := by rw [hbx, hby, hxy]
  exact ⟨sx, sy, hsx, hsy, hc, hb, by rw [hc, hb]⟩

/-- The bytes `ABCDE` in three chunks and in one chunk. -/
theorem drain_loop_fragmentation_witness :
    ∃ sx sy,
      (drainLoop (([[65], [66, 67], [68, 69]] : List (List Byte)).map ReadResult.ok
          ++ [ReadResult.ok []]) (serverInit [])).2 = some (sx, [])
      ∧ (drainLoop (([[65, 66, 67, 68, 69]] : List (List Byte)).map ReadResult.ok
          ++ [ReadResult.ok []]) (serverInit [1, 2, 3])).2 = some (sy, [])
      ∧ sx.checksum = sy.checksum ∧ sx.byte_count = sy.byte_count
      ∧ composeReport sx.checksum sx.byte_count
        = composeReport sy.checksum sy.byte_count :=
  drain_loop_fragmentation [[65], [66, 67], [68, 69]] [[65, 66, 67, 68, 69]] [] [1, 2, 3]
    (by intro c hc; simp at hc; rcases hc with rfl | rfl | rfl <;> decide)
    (by intro c hc; simp at hc; subst hc; decide) (by decide)

/-- C6, as stated, fails: a failing read does not end the drain loop.  On the
reads `-1`, then the byte 65, then 0, the loop uses all three reads and ends
with checksum 65 and byte_count 1, whereas with a read of 0 in place of the
failing one it ends at once with both 0 and the other two reads unread; and
when the failing read is the last of the script the loop has not ended. -/
theorem drain_loop_error_counterexample :
    (drainLoop [ReadResult.error, ReadResult.ok [65], ReadResult.ok []] (serverInit [])).2
        = some ({ checksum := 65, byte_count := 1, buf := [65] }, [])
      ∧ (drainLoop [ReadResult.ok [], ReadResult.ok [65], ReadResult.ok []]
          (serverInit [])).2
        = some ({ checksum := 0, byte_count := 0, buf := [] },
            [ReadResult.ok [65], ReadResult.ok []])
      ∧ (drainLoop [ReadResult.error] (serverInit [])).2 = none := by
  decide

/-- C6, amended: a failing read is logged, leaves checksum, byte_count and the
buffer as they are, and the loop goes on with the next read; from the initial
variables the loop ends exactly at the first read returning 0, with the checksum
and byte_count of all the bytes delivered before that read, and has not ended
on a script without such a read. -/
theorem drain_loop_error_continues (rest : List ReadResult) (s : Session)
    (evs : List ReadResult) (buf : List Byte) :
    drainLoop (ReadResult.error :: rest) s
        = (Event.readSock (-1) :: Event.perror "reading stream message"
            :: (drainLoop rest s).1, (drainLoop rest s).2)
      ∧ (drainLoop evs (serverInit buf)).2.map
            (fun q => (q.1.checksum, q.1.byte_count, q.2))
        = (received evs).map (fun p =>
            (byteSum p.1 % 65536, p.1.length % 4294967296, p.2)) := by
  refine ⟨?_, drainLoop_init evs buf⟩
  simp [drainLoop, sysRead, sumLoop_neg]

/-- C3: with a `write` that on each call returns `-1` or a count between 1 and
the length asked for, `safe_write` on a buffer of `len` bytes returns (within
`len` calls) 0 or -1; it returns 0 exactly when no `write` call returned `-1`,
and then the pieces taken by the successive calls, put together in order, are
the whole buffer; every call is offered exactly the bytes not yet taken; and
when it returns -1 the failing call is the first one that failed and the last
one made. -/
theorem safe_write_all_or_fail (write : Nat → Nat → Int) (mem : List Byte)
    (idx b len : Nat) (hlen : len < 18446744073709551616) (hmem : b + len ≤ mem.length)
    (hw : ∀ i l, 0 < l → write i l = -1 ∨ (1 ≤ write i l ∧ write i l ≤ l)) :
    ∃ calls ret,
      (∀ fuel, len ≤ fuel → safe_write write mem fuel idx (b : Int) len = (calls, some ret))
      ∧ (ret = 0 ∨ ret = -1)
      ∧ (ret = 0 ↔ ∀ e ∈ calls, ¬ failedWrite e)
      ∧ (ret = 0 → written calls = slice mem b len)
      ∧ (∀ pre e post, calls = pre ++ e :: post →
          ∃ o n k, e = Event.write o n k ∧ written pre ++ o = slice mem b len
            ∧ (written pre).length + n = len)
      ∧ (ret = -1 → ∃ pre o n, calls = pre ++ [Event.write o n (-1)]
          ∧ ∀ e ∈ pre, ¬ failedWrite e) := by
  obtain ⟨calls, ret, hrun, hfuel⟩ := safe_write_run write mem hw len idx b hlen
  refine ⟨calls, ret, hfuel, ?_, ?_, writeRun_written mem b len calls ret hrun,
    writeRun_offered mem b len calls ret hrun hmem, ?_⟩
  · rcases writeRun_result mem b len calls ret hrun with ⟨h0, _⟩ | ⟨hm, _⟩
    · exact Or.inl h0
    · exact Or.inr hm
  · rcases writeRun_result mem b len calls ret hrun with ⟨h0, hall⟩ | ⟨hm, pre, o, n, hc, _⟩
    · exact ⟨fun _ => hall, fun _ => h0⟩
    · constructor
      · intro h0
        rw [h0] at hm
        exact absurd hm (by decide)
      · intro hall
        exact absurd rfl (hall (Event.write o n (-1)) (by rw [hc]; simp))
  · intro hm
    rcases writeRun_result mem b len calls ret hrun with ⟨h0, _⟩ | ⟨_, hex⟩
    · rw [h0] at hm
      exact absurd hm (by decide)
    · exact hex

/-- Three bytes written one at a time, the second `write` call failing. -/
theorem safe_write_all_or_fail_witness :
    ∃ calls ret,
      (∀ fuel, 3 ≤ fuel →
        safe_write (fun i _ => if i = 1 then -1 else 1) [10, 20, 30] fuel 0 ((0 : Nat) : Int) 3
          = (calls, some ret))
      ∧ (ret = 0 ∨ ret = -1)
      ∧ (ret = 0 ↔ ∀ e ∈ calls, ¬ failedWrite e)
      ∧ (ret = 0 → written calls = slice [10, 20, 30] (0 : Nat) 3)
      ∧ (∀ pre e post, calls = pre ++ e :: post →
          ∃ o n k, e = Event.write o n k ∧ written pre ++ o = slice [10, 20, 30] (0 : Nat) 3
            ∧ (written pre).length + n = 3)
      ∧ (ret = -1 → ∃ pre o n, calls = pre ++ [Event.write o n (-1)]
          ∧ ∀ e ∈ pre, ¬ failedWrite e) :=
  safe_write_all_or_fail (fun i _ => if i = 1 then -1 else 1) [10, 20, 30] 0 0 3
    (by decide) (by decide)
    (by
      intro i l hl
      by_cases hi : i = 1
      · left; simp [hi]
      · right; simp only [hi, if_false]; omega)

/-- C4: on every script of `accept` results (failed accepts, sessions whose
report write failed and sessions of any content included), every accepted
connection begins its drain loop with `checksum = 0` and `byte_count = 0`, and
its report text is the one determined by the bytes received on that connection
alone. -/
theorem accept_loop_sessions_start_at_zero (sizeofString fuel : Nat)
    (accepts : List Accept) (buf : List Byte) :
    ∀ r ∈ (acceptLoop sizeofString fuel accepts (serverInit buf)).2,
      r.start.checksum = 0 ∧ r.start.byte_count = 0
      ∧ r.report = (received r.reads).map
          (fun p => composeReport (byteSum p.1 % 65536) (p.1.length % 4294967296)) :=
  acceptLoop_records sizeofString fuel accepts (serverInit buf) rfl rfl

/-- C2 (defect in the code): the length given to `safe_write` is `sizeof(str)`,
the size of the string object, not the length of the report.  After `"ABCDE"`
the report text is the 16-byte line `"Sum: 335 Len: 5\n"`, but with a 32-byte
string object 32 bytes are handed over: the line, its terminating zero and 15
bytes of whatever follows in memory.  Whatever the platform's constant is, the
two example reports of 16 and 14 bytes cannot both be handed over exactly. -/
theorem report_write_uses_sizeof :
    (serveConn 32 1 connABCDE (serverInit [])).2.1.report = some "Sum: 335 Len: 5\n"
      ∧ (serveConn 32 1 connABCDE (serverInit [])).2.1.handed
        = some (asciiBytes "Sum: 335 Len: 5\n"
            ++ [0, 1, 2, 3, 4, 5, 6, 7, 8, 9, 10, 11, 12, 13, 14, 15])
      ∧ (serveConn 32 1 connABCDE (serverInit [])).1
        = [Event.coutText "Accepted connection from 127.0.0.1, port 40000\n",
           Event.readSock 5, Event.readSock 0, Event.coutText "Ending connection\n",
           Event.safeWrite 32,
           Event.write (asciiBytes "Sum: 335 Len: 5\n"
             ++ [0, 1, 2, 3, 4, 5, 6, 7, 8, 9, 10, 11, 12, 13, 14, 15]) 32 32,
           Event.close]
      ∧ ∀ (sizeofString : Nat) (heap : List Byte),
          ¬ (reportHanded sizeofString heap 335 5 = asciiBytes "Sum: 335 Len: 5\n"
              ∧ reportHanded sizeofString heap 0 0 = asciiBytes "Sum: 0 Len: 0\n") := by
  refine ⟨by decide, by decide, by decide, ?_⟩
  rintro sizeofString heap ⟨h1, h2⟩
  have l1 := congrArg List.length h1
  have l2 := congrArg List.length h2
  have e1 : (asciiBytes (composeReport 335 5)).length = 16 := by decide
  have e2 : (asciiBytes (composeReport 0 0)).length = 14 := by decide
  have e3 : (asciiBytes "Sum: 335 Len: 5\n").length = 16 := by decide
  have e4 : (asciiBytes "Sum: 0 Len: 0\n").length = 14 := by decide
  simp only [reportHanded, slice, List.length_take, List.length_drop, List.length_append,
    e1, e2, e3, e4] at l1 l2
  simp at l1 l2
  omega

/-- C7 (defect in the code): a failing read of standard input does not stop the
forward loop and its `-1` is passed on to `safe_write`.  On the reads `-1`, 0
(the socket refusing the write) `safe_write` is entered with the length
`2^64 - 1`, a `write` of that length is issued, and the loop goes on to the
next read. -/
theorem forward_loop_negative_length :
    forwardLoop (fun _ _ => -1) [9, 9] 1 [ReadResult.error, ReadResult.ok []] 0 [7, 7, 7]
      = ([Event.readStdin (-1), Event.perror "reading to stream socket",
          Event.safeWrite 18446744073709551615,
          Event.write [7, 7, 7, 9, 9] 18446744073709551615 (-1),
          Event.perror "writing on stream socket",
          Event.readStdin 0, Event.safeWrite 0], some 1) := by
  decide

/-- C8 (defect in the code): `std::cout << buf` prints the buffer as a
zero-terminated string, not the bytes just read.  A chunk `65, 0, 66` is printed
as `65` only, and a chunk `104, 105` read into a buffer that held
`88, 88, 88, 88, 0` is printed as `104, 105, 88, 88`. -/
theorem print_response_not_verbatim :
    print_response [] [ReadResult.ok [65, 0, 66], ReadResult.ok []] [0, 0, 0, 0, 0]
        = ([Event.readSock 3, Event.cout [65], Event.readSock 0], some 0)
      ∧ print_response [] [ReadResult.ok [104, 105], ReadResult.ok []] [88, 88, 88, 88, 0]
        = ([Event.readSock 2, Event.cout [104, 105, 88, 88], Event.readSock 0], some 0) := by
  decide

/-- C10, as stated, fails: with `-s 999.1.1.1` and no server-port argument the
client prints the usage text and exits with status 1; the address is never
parsed and no message names it. -/
theorem client_bad_address_counterexample :
    clientMain ptonLocalOnly 3 0 none { opts := [('s', "999.1.1.1")], port := none }
        idleEnv 0
      = ([Event.cerrText "Usage: client [-s server-ip] server-port\n",
          Event.cerrText "\t-s Specify server's IPv4 number.\n",
          Event.cerrText "\tserver-port: Server port number to which client must connect.\n",
          Event.exit 1], some 1) := by
  decide

/-- C10, amended: when the last `-s` value of the command line fails address
parsing, `connect` is never called and the client exits with status 1 or 2.
The status is 2, after the message `<value>: invalid address/format`, when
`getopt` reports no option error, a server-port argument is present and the
socket was created; with no server-port argument the usage text is printed and
the status is 1. -/
theorem client_invalid_address (inet_pton : String → Int) (sockFd connectRes : Int)
    (server_ip0 : Option String) (cl : CommandLine) (env : ClientEnv) (fuel : Nat)
    (pre post : List (Char × String)) (v : String)
    (hs : cl.opts = pre ++ ('s', v) :: post)
    (hpost : ∀ o ∈ post, o.1 ≠ 's')
    (hbad : inet_pton v ≤ 0) :
    (∀ ip port, Event.connect ip port ∉
        (clientMain inet_pton sockFd connectRes server_ip0 cl env fuel).1)
      ∧ ((clientMain inet_pton sockFd connectRes server_ip0 cl env fuel).2 = some 1
          ∨ (clientMain inet_pton sockFd connectRes server_ip0 cl env fuel).2 = some 2)
      ∧ ((∀ o ∈ cl.opts, o.1 ≠ '?') → ∀ port, cl.port = some port → 0 ≤ sockFd →
          clientMain inet_pton sockFd connectRes server_ip0 cl env fuel
            = ([Event.cerrText (v ++ ": invalid address/format\n"), Event.exit 2], some 2))
      ∧ (cl.port = none →
          clientMain inet_pton sockFd connectRes server_ip0 cl env fuel = (usage, some 1)) := by
  have hk := getoptLoop_last_s pre post v hpost server_ip0
  rw [← hs] at hk
  obtain ⟨hk1, hk2⟩ := hk
  refine ⟨?_, ?_, ?_, ?_⟩
  · intro ip port
    unfold clientMain
    rcases hk1 with h | h
    · rw [h]; simp [usage]
    · rw [h]
      cases hp : cl.port with
      | none => simp [usage]
      | some pt =>
        by_cases hsock : sockFd < 0
        · simp [hsock]
        · simp [hsock, hbad]
  · unfold clientMain
    rcases hk1 with h | h
    · rw [h]; simp
    · rw [h]
      cases hp : cl.port with
      | none => simp
      | some pt =>
        by_cases hsock : sockFd < 0
        · simp [hsock]
        · simp [hsock, hbad]
  · intro hq port hp hsock
    unfold clientMain
    rw [hk2 hq, hp]
    have : ¬ sockFd < 0 := by omega
    simp [this, hbad]
  · intro hp
    unfold clientMain
    rcases hk1 with h | h
    · rw [h]
    · rw [h, hp]

/-- The command line `client -s 10.0.0.1 -s 999.1.1.1 8080`. -/
theorem client_invalid_address_witness :
    (∀ ip port, Event.connect ip port ∉
        (clientMain ptonLocalOnly 3 0 none twoAddressLine idleEnv 0).1)
      ∧ ((clientMain ptonLocalOnly 3 0 none twoAddressLine idleEnv 0).2 = some 1
          ∨ (clientMain ptonLocalOnly 3 0 none twoAddressLine idleEnv 0).2 = some 2)
      ∧ ((∀ o ∈ twoAddressLine.opts, o.1 ≠ '?') →
          ∀ port, twoAddressLine.port = some port → (0 : Int) ≤ 3 →
          clientMain ptonLocalOnly 3 0 none twoAddressLine idleEnv 0
            = ([Event.cerrText ("999.1.1.1" ++ ": invalid address/format\n"), Event.exit 2],
                some 2))
      ∧ (twoAddressLine.port = none →
          clientMain ptonLocalOnly 3 0 none twoAddressLine idleEnv 0 = (usage, some 1)) :=
  client_invalid_address ptonLocalOnly 3 0 none twoAddressLine idleEnv 0
    [('s', "10.0.0.1")] [] "999.1.1.1" rfl (by simp) (by decide)

/-- C9: when standard input delivers chunks of positive length and then end of
input, and every socket `write` takes at least one byte, the run of the
connected client is: the forward loop, whose `write` calls take exactly the
concatenation of the chunks, in order; the read of 0 with its `safe_write` of
length 0, which issues no `write`; one `shutdown` of the write direction; and
only then the reads and prints of `print_response`, followed by `close`. -/
theorem client_forwards_stdin (env : ClientEnv) (chunks : List (List Byte)) (fuel : Nat)
    (hstdin : env.stdin = chunks.map ReadResult.ok ++ [ReadResult.ok []])
    (hpos : ∀ c ∈ chunks, 0 < c.length ∧ c.length ≤ 2048)
    (hw : ∀ i l, 0 < l → 1 ≤ env.write i l ∧ env.write i l ≤ l)
    (hfuel : 2048 ≤ fuel) :
    ∃ fwd resp,
      (clientSession env fuel).1
          = fwd ++ [Event.readStdin 0, Event.safeWrite 0, Event.shutdownWr] ++ resp
        ∧ written fwd = chunks.flatten
        ∧ (∀ e ∈ fwd, forwardEvent e)
        ∧ (∀ e ∈ resp, responseEvent e)
        ∧ (resp = (print_response env.rstack env.sock env.rbuf).1
            ∨ resp = (print_response env.rstack env.sock env.rbuf).1 ++ [Event.close]) := by
  obtain ⟨fwd, n, hfwd, hwf, hev⟩ :=
    forwardLoop_chunks env.write env.stack fuel hw hfuel chunks hpos 0 env.buf
  rw [← hstdin] at hfwd
  have hresp := print_response_events env.rstack env.sock env.rbuf
  cases hp : (print_response env.rstack env.sock env.rbuf).2 with
  | none =>
    refine ⟨fwd, (print_response env.rstack env.sock env.rbuf).1, ?_, hwf, hev, hresp,
      Or.inl rfl⟩
    simp [clientSession, hfwd, hp]
  | some ret =>
    refine ⟨fwd, (print_response env.rstack env.sock env.rbuf).1 ++ [Event.close], ?_, hwf,
      hev, ?_, Or.inr rfl⟩
    · simp [clientSession, hfwd, hp]
    · intro e he
      rcases List.mem_append.mp he with he | he
      · exact hresp e he
      · simp only [List.mem_singleton] at he
        subst he
        trivial

/-- The run of `smallEnv`: input `1, 2, 3` and `4`, at most two bytes per `write`. -/
theorem client_forwards_stdin_witness :
    ∃ fwd resp,
      (clientSession smallEnv 2048).1
          = fwd ++ [Event.readStdin 0, Event.safeWrite 0, Event.shutdownWr] ++ resp
        ∧ written fwd = ([[1, 2, 3], [4]] : List (List Byte)).flatten
        ∧ (∀ e ∈ fwd, forwardEvent e)
        ∧ (∀ e ∈ resp, responseEvent e)
        ∧ (resp = (print_response smallEnv.rstack smallEnv.sock smallEnv.rbuf).1
            ∨ resp = (print_response smallEnv.rstack smallEnv.sock smallEnv.rbuf).1
                ++ [Event.close]) :=
  client_forwards_stdin smallEnv [[1, 2, 3], [4]] 2048 rfl
    (by intro c hc; simp at hc; rcases hc with rfl | rfl <;> decide)
    (by
      intro i l hl
      simp only [smallEnv]
      omega)
    (le_refl _)

/-- The second session of `twoSessions`, which follows a session with non-zero totals and a failed accept. -/
theorem accept_loop_sessions_start_at_zero_witness :
    ∃ h : 1 < (acceptLoop 32 1 twoSessions (serverInit [])).2.length,
      ((acceptLoop 32 1 twoSessions (serverInit [])).2.get ⟨1, h⟩).start.checksum = 0
        ∧ ((acceptLoop 32 1 twoSessions (serverInit [])).2.get ⟨1, h⟩).start.byte_count = 0
        ∧ ((acceptLoop 32 1 twoSessions (serverInit [])).2.get ⟨1, h⟩).report
          = (received ((acceptLoop 32 1 twoSessions (serverInit [])).2.get ⟨1, h⟩).reads).map
              (fun p => composeReport (byteSum p.1 % 65536) (p.1.length % 4294967296)) :=
  ⟨by decide, accept_loop_sessions_start_at_zero 32 1 twoSessions [] _ (List.get_mem _ _ _)⟩

end ServerClient
